import Mathlib

/-!
Shallow embedding of vineyard's etcd-backed meta service
(src/server/services/etcd_meta_service.{h,cc}) and proofs of the spec's
claims about it: the watch-event handler, transaction-chunked commits,
snapshot reads, the distributed-lock handle, and the daemon-watch
reconnection loop.

Keys and prefixes are modelled as lists of characters (C++ std::string);
revisions and etcd error codes as naturals.
-/

namespace Vineyard

/-- Keys, key prefixes and values are byte/char sequences. -/
abbrev Key := List Char

/-- Modelled from the spec: the vineyard Status sum type (its definition in
src/common/util/status.h is not part of the excerpt): OK, an etcd error
carrying the backing store's numeric code and message, or Invalid for
programmer errors such as double unlock. -/
inductive Status where
  | OK : Status
  | EtcdError (code : Nat) (msg : String) : Status
  | Invalid (msg : String) : Status
deriving DecidableEq, Repr

/-- Modelled from the spec: the factory Status::EtcdError(code, msg) yields
OK when the response is error-free (code 0), per the spec's "status carries
err_code/err_msg (OK when the response is error-free)". -/
def mkEtcdError (code : Nat) (msg : String) : Status :=
  if code = 0 then Status.OK else Status.EtcdError code msg

/-- Modelled from the spec: the operation record op_t (declared in
server/services/meta_service.h, not part of the excerpt): a tagged union
with variants Put{key, value, rev} and Del{key, rev}. -/
inductive op_t where
  | Put (key : Key) (value : String) (rev : Nat) : op_t
  | Del (key : Key) (rev : Nat) : op_t
deriving DecidableEq, Repr

/-- Modelled from the spec: a default-constructed (value-initialized) op_t,
as produced by constructing a std::vector of op_t with a given size: the
tag is the first enumerator (kPut) and the key/value/revision members are
empty/zero. -/
def op_t.default : op_t := op_t.Put [] "" 0

/-- Key of an operation record. -/
def op_t.opKey : op_t → Key
  | op_t.Put k _ _ => k
  | op_t.Del k _ => k

/-! The distributed lock handle (class EtcdLock, etcd_meta_service.h lines
69-103, together with the release closure built in
EtcdMetaService::requestLock, etcd_meta_service.cc lines 96-115). The
handle's only mutable state is the atomic released_ flag; the closure's
interaction with the backing store is represented by the unlock response
it would observe, and the number of unlock calls it issues is returned
explicitly so that invocations can be counted. -/

/-- State of an EtcdLock handle: the atomic released_ flag
(etcd_meta_service.h line 100), false at construction. -/
structure EtcdLock where
  released : Bool
deriving DecidableEq, Repr

/-- Response of the backing store to an unlock call (fields of
etcd::Response consumed by the release closure: is_ok, error_code,
error_message, index). -/
structure UnlockResponse where
  is_ok : Bool
  err_code : Nat
  err_msg : String
  index : Nat
deriving DecidableEq, Repr

/-- Result of one Release call: the handle state afterwards, the returned
Status, the value of the caller's out-parameter rev afterwards, and how
many unlock calls reached the backing store during this call. -/
structure ReleaseResult where
  lock : EtcdLock
  status : Status
  rev : Nat
  unlocks : Nat
deriving DecidableEq, Repr

/-- Embeds EtcdLock::Release (etcd_meta_service.h lines 71-79): the
released_.exchange(true) guard, and on the winning call the release
closure from requestLock (etcd_meta_service.cc lines 98-114), which issues
unlock(lock_key), on an ok response stores the response's index into the
out-parameter rev, and returns Status::EtcdError(code, msg). A losing call
returns Invalid without touching the backing store. -/
def EtcdLock.Release (l : EtcdLock) (uresp : UnlockResponse) (rev : Nat) :
    ReleaseResult :=
  if l.released = false then
    { lock := { released := true },
      status := mkEtcdError uresp.err_code uresp.err_msg,
      rev := if uresp.is_ok then uresp.index else rev,
      unlocks := 1 }
  else
    { lock := { released := true },
      status := Status.Invalid "double unlock",
      rev := rev,
      unlocks := 0 }

/-- Embeds the destructor EtcdLock::~EtcdLock (etcd_meta_service.h lines
80-86): when released_ is still false it calls Release with a scratch
out-parameter and discards the status. Returns the state afterwards and
the number of unlock calls issued. -/
def EtcdLock.destroy (l : EtcdLock) (uresp : UnlockResponse) :
    EtcdLock × Nat :=
  if l.released = false then
    let r := l.Release uresp 0
    (r.lock, r.unlocks)
  else
    (l, 0)

/-- Events in the life of one lock handle: an explicit Release call, or
destruction of the handle. -/
inductive LockEvent where
  | rel : LockEvent
  | destroy : LockEvent
deriving DecidableEq, Repr

/-- One event applied to a handle: the resulting state and the number of
unlock calls it caused. -/
def lockStep (l : EtcdLock) (uresp : UnlockResponse) :
    LockEvent → EtcdLock × Nat
  | LockEvent.rel => ((l.Release uresp 0).lock, (l.Release uresp 0).unlocks)
  | LockEvent.destroy => l.destroy uresp

/-- Total number of unlock calls issued to the backing store over a
sequence of events on one handle. The atomic exchange linearizes
concurrent Release/destruction, so an interleaving is a sequence. -/
def lockRun (l : EtcdLock) (uresp : UnlockResponse) : List LockEvent → Nat
  | [] => 0
  | e :: tr => (lockStep l uresp e).2 + lockRun (lockStep l uresp e).1 uresp tr

/-! The watch-event handler (EtcdWatchHandler::operator(),
etcd_meta_service.cc lines 38-76). -/

/-- Type of a raw etcd watch event (mvccpb::Event): PUT, DELETE_, or any
other (invalid) event type. -/
inductive EventType where
  | PUT : EventType
  | DELETE_ : EventType
  | other : EventType
deriving DecidableEq, Repr

/-- One raw watch event: its type and the key/value/mod_revision of the
attached key-value record. -/
structure Event where
  type : EventType
  key : Key
  value : String
  mod_revision : Nat
deriving DecidableEq, Repr

/-- Body of the per-event loop of EtcdWatchHandler::operator()
(etcd_meta_service.cc lines 43-73): skip keys under a nonempty
filter_prefix_ (the sync-lock subtree), skip keys not under
prefix_ + "/", strip prefix_.size() characters from the key, and map PUT
and DELETE_ events to Put/Del records; other event types produce
nothing. Returns the record the event contributes, if any. -/
def handleEvent (pfx fpfx : Key) (e : Event) : Option op_t :=
  if fpfx ≠ [] ∧ fpfx.isPrefixOf e.key then
    none
  else if ¬ (pfx ++ ['/']).isPrefixOf e.key then
    none
  else
    let op_key := e.key.drop pfx.length
    match e.type with
    | EventType.PUT => some (op_t.Put op_key e.value e.mod_revision)
    | EventType.DELETE_ => some (op_t.Del op_key e.mod_revision)
    | EventType.other => none

/-- Operation records produced by EtcdWatchHandler::operator() for a batch
of events, in batch order (the loop appends to ops in event order). -/
def EtcdWatchHandler.ops (pfx fpfx : Key) (events : List Event) :
    List op_t :=
  events.filterMap (handleEvent pfx fpfx)

/-- Per-event emission rule written from the spec's words (section 4.2,
steps 1-4): drop keys beginning with the sync-lock prefix, drop keys not
beginning with prefix + "/", otherwise strip the namespace prefix and map
PUT/DELETE to Put/Del, dropping anything else. Unlike the code, the spec
states no nonemptiness condition on the sync-lock prefix. -/
def specEmit (pfx fpfx : Key) (e : Event) : Option op_t :=
  if fpfx.isPrefixOf e.key then
    none
  else if ¬ (pfx ++ ['/']).isPrefixOf e.key then
    none
  else
    match e.type with
    | EventType.PUT =>
        some (op_t.Put (e.key.drop pfx.length) e.value e.mod_revision)
    | EventType.DELETE_ =>
        some (op_t.Del (e.key.drop pfx.length) e.mod_revision)
    | EventType.other => none

/-! EtcdMetaService::requestAll (etcd_meta_service.cc lines 172-200). -/

/-- Response of the backing store to a recursive range (ls) request: the
key-value pairs, the error code/message, and the snapshot revision
(index). -/
structure RangeResponse where
  kvs : List (Key × String)
  err_code : Nat
  err_msg : String
  index : Nat
deriving DecidableEq, Repr

/-- Operation list built by requestAll's continuation (etcd_meta_service.cc
lines 180-194): the ops vector is constructed with resp.keys().size()
value-initialized elements, then the loop appends (emplace_back) one Put
record per key that is nonempty and starts with prefix_ + "/", with
prefix_.size() characters stripped and the response's revision
resp.index(). -/
def requestAllOps (pfx : Key) (resp : RangeResponse) : List op_t :=
  resp.kvs.map (fun _ => op_t.default) ++
    resp.kvs.filterMap (fun kv =>
      if kv.1 = [] then
        none
      else if ¬ (pfx ++ ['/']).isPrefixOf kv.1 then
        none
      else
        some (op_t.Put (kv.1.drop pfx.length) kv.2 resp.index))

/-- EtcdMetaService::requestAll (etcd_meta_service.cc lines 172-200): it
issues one ls request for prefix_ + prefix — base_rev appears nowhere in
the body — and posts callback(status, ops, resp.index()). The returned
pair is (the ls request's key argument, the posted callback arguments). -/
def requestAll (pfx reqPfx : Key) (base_rev : Nat) (resp : RangeResponse) :
    Key × (Status × List op_t × Nat) :=
  (pfx ++ reqPfx,
   (mkEtcdError resp.err_code resp.err_msg, requestAllOps pfx resp,
    resp.index))

/-! The daemon-watch state machine: EtcdMetaService::startDaemonWatch and
retryDaeminWatch (etcd_meta_service.cc lines 211-246) and
EtcdMetaService::Stop (etcd_meta_service.h lines 127-139). -/

/-- BACKOFF_RETRY_TIME (etcd_meta_service.cc line 30): seconds the backoff
timer is armed for. -/
def BACKOFF_RETRY_TIME : Nat := 10

/-- State of the daemon-watch machinery of one EtcdMetaService: watcher_
(when active, recorded with the start revision it was created with), the
current revision rev_ (modelled from the spec: rev_ lives in IMetaService,
outside the excerpt; it advances to the last observed event's revision),
backoff_timer_ (when armed, its duration in seconds and the since_rev the
retry captured), and whether the owned etcd child process is alive. -/
structure DaemonWatch where
  watcher : Option Nat
  rev : Nat
  timer : Option (Nat × Nat)
  procAlive : Bool
deriving DecidableEq, Repr

/-- EtcdMetaService::retryDaeminWatch (etcd_meta_service.cc lines
232-246): arms backoff_timer_ for BACKOFF_RETRY_TIME seconds, capturing
since_rev for the retry. -/
def retryDaeminWatch (s : DaemonWatch) (sinceRev : Nat) : DaemonWatch :=
  { s with timer := some (BACKOFF_RETRY_TIME, sinceRev) }

/-- EtcdMetaService::startDaemonWatch (etcd_meta_service.cc lines
211-230): constructs a watcher delivering events from since_rev + 1; if
construction throws (ok = false), falls back to retryDaeminWatch with the
same since_rev. -/
def startDaemonWatch (s : DaemonWatch) (sinceRev : Nat) (ok : Bool) :
    DaemonWatch :=
  if ok then
    { s with watcher := some (sinceRev + 1) }
  else
    retryDaeminWatch s sinceRev

/-- Termination of the active watch, as handled by the Wait continuation
installed in startDaemonWatch (etcd_meta_service.cc lines 220-225): the
watcher is gone; when cancelled the continuation returns at once,
otherwise it calls retryDaeminWatch with the current revision
this->rev_. -/
def watchTerminate (s : DaemonWatch) (cancelled : Bool) : DaemonWatch :=
  let s' := { s with watcher := none }
  if cancelled then s' else retryDaeminWatch s' s.rev

/-- Firing of an armed backoff timer (the async_wait continuation,
etcd_meta_service.cc lines 237-245): the timer is consumed and
startDaemonWatch is called with the captured since_rev, whether or not
the wait reported an error; ok tells whether watcher construction then
succeeds. With no timer armed nothing happens. -/
def timerFire (s : DaemonWatch) (ok : Bool) : DaemonWatch :=
  match s.timer with
  | none => s
  | some (_, sinceRev) =>
      startDaemonWatch { s with timer := none } sinceRev ok

/-- EtcdMetaService::Stop (etcd_meta_service.h lines 127-139): cancels
watcher_ inside a catch-all, then terminates and waits for the owned etcd
child process. The body never touches backoff_timer_. -/
def Stop (s : DaemonWatch) : DaemonWatch :=
  { s with watcher := none, procAlive := false }

/-! EtcdMetaService::commitUpdates (etcd_meta_service.cc lines 123-170):
the transaction-chunking protocol. -/

/-- One operation set up on an etcdv3::Transaction: setup_put or
setup_delete. -/
inductive TxnOp where
  | put (key : Key) (value : String) : TxnOp
  | del (key : Key) : TxnOp
deriving DecidableEq, Repr

/-- Operations of one transaction, in setup order. -/
abbrev Txn := List TxnOp

/-- The transaction built from a chunk of changes (the inner for-loops at
etcd_meta_service.cc lines 134-141 and 153-160): kPut becomes
setup_put(prefix_ + key, value), kDel becomes setup_delete(prefix_ +
key), in input order. -/
def txnOf (pfx : Key) (chunk : List op_t) : Txn :=
  chunk.map (fun op =>
    match op with
    | op_t.Put k v _ => TxnOp.put (pfx ++ k) v
    | op_t.Del k _ => TxnOp.del (pfx ++ k))

/-- Response of the backing store to one txn request. -/
structure TxnResponse where
  is_ok : Bool
  err_code : Nat
  err_msg : String
  index : Nat
deriving DecidableEq, Repr

/-- Observable outcome of one commitUpdates call: the transactions issued
to the backing store in order, each tagged with whether it was awaited
synchronously; the transactions the backing store applied (those answered
is_ok — a failed txn is all-or-nothing and applies nothing, and nothing
is ever rolled back); and the callback invocations posted to the meta
context. -/
structure CommitResult where
  issued : List (Txn × Bool)
  applied : List Txn
  callbacks : List (Status × Nat)
deriving DecidableEq, Repr

/-- EtcdMetaService::commitUpdates (etcd_meta_service.cc lines 123-170).
The while-loop runs as long as offset + 127 < changes.size(): it issues a
synchronous txn of the next 127 changes; on an ok response it advances,
otherwise it posts the callback with that response's status and index and
returns. After the loop the remaining (at most 127, possibly zero)
changes are issued as one final asynchronous txn whose completion posts
the callback. The i-th issued transaction receives response resp i. -/
def commitUpdates (pfx : Key) (changes : List op_t)
    (resp : Nat → TxnResponse) : CommitResult :=
  if 127 < changes.length then
    let tx := txnOf pfx (changes.take 127)
    let r := resp 0
    if r.is_ok then
      let rest := commitUpdates pfx (changes.drop 127) (fun k => resp (k + 1))
      { issued := (tx, true) :: rest.issued,
        applied := tx :: rest.applied,
        callbacks := rest.callbacks }
    else
      { issued := [(tx, true)],
        applied := [],
        callbacks := [(mkEtcdError r.err_code r.err_msg, r.index)] }
  else
    let tx := txnOf pfx changes
    let r := resp 0
    { issued := [(tx, false)],
      applied := if r.is_ok then [tx] else [],
      callbacks := [(mkEtcdError r.err_code r.err_msg, r.index)] }
termination_by changes.length
decreasing_by simp [List.length_drop]; omega

/-! Lock-handle theorems. -/

/-- Once released_ is true, no later event on the handle ever issues an
unlock call. -/
lemma lockRun_released (uresp : UnlockResponse) (tr : List LockEvent) :
    lockRun { released := true } uresp tr = 0 := by
  induction tr with
  | nil => rfl
  | cons e tr ih =>
      cases e <;>
        simp [lockRun, lockStep, EtcdLock.Release, EtcdLock.destroy, ih]

/-- A first event on an unreleased handle issues exactly one unlock and
leaves the handle released. -/
lemma lockStep_unreleased (uresp : UnlockResponse) (e : LockEvent) :
    lockStep { released := false } uresp e = ({ released := true }, 1) := by
  cases e <;> simp [lockStep, EtcdLock.Release, EtcdLock.destroy]

/-- C1. For every lock handle, over any sequence of Release calls and
destruction (in any interleaving, linearized by the atomic exchange), the
backing-store unlock is invoked at most once, and exactly once iff Release
was called at least once or the handle was destroyed without an explicit
release. -/
theorem lock_unlock_exactly_once (uresp : UnlockResponse)
    (tr : List LockEvent) :
    lockRun { released := false } uresp tr ≤ 1 ∧
      (lockRun { released := false } uresp tr = 1 ↔
        (LockEvent.rel ∈ tr ∨
          (LockEvent.destroy ∈ tr ∧ LockEvent.rel ∉ tr))) := by
  cases tr with
  | nil => simp [lockRun]
  | cons e tr =>
      have hrun : lockRun { released := false } uresp (e :: tr) = 1 := by
        simp [lockRun, lockStep_unreleased, lockRun_released]
      refine ⟨le_of_eq hrun, ?_⟩
      rw [hrun]
      simp only [true_iff]
      cases e with
      | rel => exact Or.inl (List.mem_cons_self _ _)
      | destroy =>
          by_cases hmem : LockEvent.rel ∈ LockEvent.destroy :: tr
          · exact Or.inl hmem
          · exact Or.inr ⟨List.mem_cons_self _ _, hmem⟩

/-- C2. The first Release on a handle issues exactly one unlock, writes the
unlock response's revision into the out-parameter on success, and returns
OK when the backing store reports no error, else the backing store's
error; a second Release on the resulting handle returns
Invalid("double unlock") and issues no unlock. -/
theorem lock_release_first_then_double_unlock (u1 u2 : UnlockResponse)
    (rev0 : Nat) :
    (EtcdLock.Release { released := false } u1 rev0).unlocks = 1 ∧
    (u1.is_ok = true →
      (EtcdLock.Release { released := false } u1 rev0).rev = u1.index) ∧
    (u1.err_code = 0 →
      (EtcdLock.Release { released := false } u1 rev0).status = Status.OK) ∧
    (u1.err_code ≠ 0 →
      (EtcdLock.Release { released := false } u1 rev0).status =
        Status.EtcdError u1.err_code u1.err_msg) ∧
    ((EtcdLock.Release { released := false } u1 rev0).lock.Release u2
        (EtcdLock.Release { released := false } u1 rev0).rev).status =
      Status.Invalid "double unlock" ∧
    ((EtcdLock.Release { released := false } u1 rev0).lock.Release u2
        (EtcdLock.Release { released := false } u1 rev0).rev).unlocks = 0 := by
  refine ⟨rfl, ?_, ?_, ?_, rfl, rfl⟩
  · intro h; simp [EtcdLock.Release, h]
  · intro h; simp [EtcdLock.Release, mkEtcdError, h]
  · intro h; simp [EtcdLock.Release, mkEtcdError, h]

/-- Witness for C2 at a concrete successful unlock response. -/
theorem lock_release_first_then_double_unlock_witness :
    (EtcdLock.Release { released := false } ⟨true, 0, "", 42⟩ 0).unlocks = 1 ∧
    (EtcdLock.Release { released := false } ⟨true, 0, "", 42⟩ 0).rev = 42 ∧
    (EtcdLock.Release { released := false } ⟨true, 0, "", 42⟩ 0).status =
      Status.OK ∧
    ((EtcdLock.Release { released := false } ⟨true, 0, "", 42⟩
        0).lock.Release ⟨true, 0, "", 43⟩
        (EtcdLock.Release { released := false } ⟨true, 0, "", 42⟩
          0).rev).status = Status.Invalid "double unlock" ∧
    ((EtcdLock.Release { released := false } ⟨true, 0, "", 42⟩
        0).lock.Release ⟨true, 0, "", 43⟩
        (EtcdLock.Release { released := false } ⟨true, 0, "", 42⟩
          0).rev).unlocks = 0 := by
  obtain ⟨h1, h2, h3, _, h5, h6⟩ :=
    lock_release_first_then_double_unlock ⟨true, 0, "", 42⟩ ⟨true, 0, "", 43⟩ 0
  exact ⟨h1, h2 rfl, h3 rfl, h5, h6⟩

/-! Daemon-watch theorems. -/

/-- C8. From a state with an active watcher and no armed timer, a
cancelled watch termination leaves the machine stopped with no retry
armed, while any other termination arms the 10-second backoff timer
capturing the current revision rev_, and its firing re-subscribes with
start revision rev_ + 1. -/
theorem daemon_watch_backoff (s : DaemonWatch) (w : Nat)
    (hw : s.watcher = some w) (ht : s.timer = none) :
    (watchTerminate s true).watcher = none ∧
    (watchTerminate s true).timer = none ∧
    (watchTerminate s false).timer = some (BACKOFF_RETRY_TIME, s.rev) ∧
    BACKOFF_RETRY_TIME = 10 ∧
    (timerFire (watchTerminate s false) true).watcher = some (s.rev + 1) := by
  refine ⟨rfl, ht, rfl, rfl, ?_⟩
  simp [watchTerminate, retryDaeminWatch, timerFire, startDaemonWatch]

/-- Witness for C8 at a concrete watching state. -/
theorem daemon_watch_backoff_witness :
    (⟨some 1, 5, none, true⟩ : DaemonWatch).watcher = some 1 ∧
    (⟨some 1, 5, none, true⟩ : DaemonWatch).timer = none ∧
    ((watchTerminate ⟨some 1, 5, none, true⟩ true).watcher = none ∧
     (watchTerminate ⟨some 1, 5, none, true⟩ true).timer = none ∧
     (watchTerminate ⟨some 1, 5, none, true⟩ false).timer =
       some (BACKOFF_RETRY_TIME, 5) ∧
     BACKOFF_RETRY_TIME = 10 ∧
     (timerFire (watchTerminate ⟨some 1, 5, none, true⟩ false) true).watcher =
       some 6) :=
  ⟨rfl, rfl, daemon_watch_backoff ⟨some 1, 5, none, true⟩ 1 rfl rfl⟩

/-- C7 (code evaluated at the failing input). With the backoff timer armed
(duration 10, captured revision 5), Stop cancels the watcher and
terminates the child process but leaves the timer armed, and when that
timer later fires the machine re-subscribes (a new watcher at revision 6),
so callbacks are posted after Stop returned. -/
theorem stop_leaves_backoff_timer_armed :
    Stop ⟨none, 5, some (10, 5), true⟩ =
      ⟨none, 5, some (10, 5), false⟩ ∧
    (timerFire (Stop ⟨none, 5, some (10, 5), true⟩) true).watcher =
      some 6 := by
  decide

/-! Theorems about requestAll. -/

/-- C9. requestAll never consults base_rev: two calls differing only in
base_rev issue the same ls request to the backing store and post the same
(status, ops, rev) to the callback. -/
theorem requestAll_ignores_base_rev (pfx reqPfx : Key) (b1 b2 : Nat)
    (resp : RangeResponse) :
    requestAll pfx reqPfx b1 resp = requestAll pfx reqPfx b2 resp := rfl

/-! Watch-handler theorems. -/

/-- A concrete PUT event on key "x/a". -/
def ev0 : Event := ⟨EventType.PUT, ['x', '/', 'a'], "v", 3⟩

/-- C5 (counterexample). With an empty sync-lock prefix, every key starts
with the sync-lock prefix, yet the handler (whose skip is guarded by
!filter_prefix_.empty()) still emits a record for the event: the claim's
"no operation record for an event whose key starts with the sync-lock
prefix" fails as stated. -/
theorem watch_handler_empty_filter_emits :
    List.isPrefixOf ([] : Key) ev0.key = true ∧
    EtcdWatchHandler.ops ['x'] [] [ev0] = [op_t.Put ['/', 'a'] "v" 3] := by
  decide

/-- With a nonempty sync-lock prefix the handler's per-event behaviour
coincides with the spec's per-event emission rule. -/
lemma handleEvent_eq_specEmit (pfx fpfx : Key) (hf : fpfx ≠ [])
    (e : Event) : handleEvent pfx fpfx e = specEmit pfx fpfx e := by
  simp [handleEvent, specEmit, hf]

/-- C5 (amended: provided the sync-lock prefix is nonempty — the code
disables the sync-lock filter when it is empty). The handler emits no
record for events whose key starts with the sync-lock prefix or does not
start with prefix + "/", emits Put{stripped key, value, mod_revision} for
PUT and Del{stripped key, mod_revision} for DELETE, drops other event
types, and preserves batch order: its output is exactly the order-
preserving filterMap of the spec's per-event rule. -/
theorem watch_handler_matches_spec (pfx fpfx : Key) (events : List Event)
    (hf : fpfx ≠ []) :
    EtcdWatchHandler.ops pfx fpfx events =
      events.filterMap (specEmit pfx fpfx) := by
  unfold EtcdWatchHandler.ops
  induction events with
  | nil => rfl
  | cons e es ih =>
      simp only [List.filterMap_cons, handleEvent_eq_specEmit pfx fpfx hf e, ih]

/-- Witness for the amended C5 at a concrete nonempty sync-lock prefix and
a one-event batch. -/
theorem watch_handler_matches_spec_witness :
    (['s'] : Key) ≠ [] ∧
    EtcdWatchHandler.ops ['x'] ['s'] [ev0] =
      List.filterMap (specEmit ['x'] ['s']) [ev0] :=
  ⟨by decide, watch_handler_matches_spec ['x'] ['s'] [ev0] (by decide)⟩

/-- A record produced by handleEvent has a key that retains the leading
separator: exactly prefix_.size() characters are stripped from a key that
starts with prefix_ + "/". -/
lemma handleEvent_opKey (pfx fpfx : Key) (e : Event) (op : op_t)
    (he : handleEvent pfx fpfx e = some op) :
    (op_t.opKey op).head? = some '/' := by
  unfold handleEvent at he
  by_cases h1 : fpfx ≠ [] ∧ fpfx.isPrefixOf e.key
  · rw [if_pos h1] at he
    exact absurd he (by simp)
  · rw [if_neg h1] at he
    by_cases h2 : (pfx ++ ['/']).isPrefixOf e.key
    · rw [if_neg (not_not_intro h2)] at he
      obtain ⟨t, ht⟩ := List.isPrefixOf_iff_prefix.mp h2
      have hdrop : e.key.drop pfx.length = '/' :: t := by
        rw [← ht, List.append_assoc]
        simp [List.drop_left]
      cases htype : e.type with
      | PUT =>
          rw [htype] at he
          rw [← Option.some.inj he]
          simp [op_t.opKey, hdrop]
      | DELETE_ =>
          rw [htype] at he
          rw [← Option.some.inj he]
          simp [op_t.opKey, hdrop]
      | other =>
          rw [htype] at he
          exact absurd he (by simp)
    · rw [if_pos (by simpa using h2)] at he
      exact absurd he (by simp)

/-- Every record the watch handler emits has a key beginning with the
separator character. -/
lemma watch_handler_opKey_starts_with_slash (pfx fpfx : Key)
    (events : List Event) :
    ∀ op ∈ EtcdWatchHandler.ops pfx fpfx events,
      (op_t.opKey op).head? = some '/' := by
  intro op hop
  obtain ⟨e, -, he⟩ := List.mem_filterMap.mp hop
  exact handleEvent_opKey pfx fpfx e op he

/-! Theorems about the requestAll callback payload (the vector of op
records). -/

/-- C6 (code evaluated at the failing input). For a snapshot holding the
single key "x/a" under prefix "x" at revision 7, the callback's op list is
not exactly the one materialized Put record: because the ops vector is
constructed with resp.keys().size() value-initialized elements and then
appended to, a default-constructed record precedes it. -/
theorem requestAll_extra_default_record :
    requestAllOps ['x'] ⟨[(['x', '/', 'a'], "v")], 0, "", 7⟩ =
      [op_t.default, op_t.Put ['/', 'a'] "v" 7] ∧
    requestAllOps ['x'] ⟨[(['x', '/', 'a'], "v")], 0, "", 7⟩ ≠
      [op_t.Put ['/', 'a'] "v" 7] := by
  decide

/-- C10 (code evaluated at the failing input). In the same snapshot, the
callback's op list contains a (default-constructed) record whose key is
empty, so not every emitted operation key begins with "/". -/
theorem requestAll_op_key_without_separator :
    (requestAllOps ['x'] ⟨[(['x', '/', 'a'], "v")], 0, "", 7⟩).map
        op_t.opKey = [[], ['/', 'a']] ∧
    ¬ (∀ op ∈ requestAllOps ['x'] ⟨[(['x', '/', 'a'], "v")], 0, "", 7⟩,
        (op_t.opKey op).head? = some '/') := by
  decide

/-! Chunking theorems about commitUpdates. -/

/-- Transaction building distributes over concatenation of change lists. -/
lemma txnOf_append (pfx : Key) (a b : List op_t) :
    txnOf pfx (a ++ b) = txnOf pfx a ++ txnOf pfx b := by
  simp [txnOf]

/-- A built transaction has one operation per change in the chunk. -/
lemma txnOf_length (pfx : Key) (chunk : List op_t) :
    (txnOf pfx chunk).length = chunk.length := by
  simp [txnOf]

/-- Core chunk-counting induction: when every transaction response is ok,
commitUpdates issues max 1 (ceil(N / 127)) transactions of at most 127
operations each, their concatenation is the whole change list translated
in input order, and the synchronicity flags are true for all but the
final transaction. -/
lemma commit_chunking_aux (pfx : Key) :
    ∀ n (changes : List op_t), changes.length ≤ n →
      ∀ resp : Nat → TxnResponse, (∀ i, (resp i).is_ok = true) →
        (commitUpdates pfx changes resp).issued.length =
            max 1 ((changes.length + 126) / 127) ∧
        (∀ t ∈ (commitUpdates pfx changes resp).issued, t.1.length ≤ 127) ∧
        ((commitUpdates pfx changes resp).issued.map Prod.fst).flatten =
            txnOf pfx changes ∧
        (commitUpdates pfx changes resp).issued.map Prod.snd =
            List.replicate
              ((commitUpdates pfx changes resp).issued.length - 1) true ++
              [false] := by
  intro n
  induction n with
  | zero =>
      intro changes hlen resp hok
      have hz : changes.length = 0 := Nat.le_zero.mp hlen
      have hlt : ¬ 127 < changes.length := by omega
      rw [commitUpdates, if_neg hlt]
      refine ⟨by simp; omega, ?_, by simp, by simp⟩
      intro t ht
      simp at ht
      simp [ht, txnOf_length]
      omega
  | succ n ih =>
      intro changes hlen resp hok
      by_cases hlt : 127 < changes.length
      · rw [commitUpdates, if_pos hlt, if_pos (hok 0)]
        have hdlen : (changes.drop 127).length ≤ n := by
          simp [List.length_drop]; omega
        obtain ⟨ih1, ih2, ih3, ih4⟩ :=
          ih (changes.drop 127) hdlen (fun k => resp (k + 1))
            (fun i => hok (i + 1))
        refine ⟨?_, ?_, ?_, ?_⟩
        · simp only [List.length_cons, ih1, List.length_drop]
          omega
        · intro t ht
          simp only [List.mem_cons] at ht
          rcases ht with ht | ht
          · simp [ht, txnOf_length]
          · exact ih2 t ht
        · simp only [List.map_cons, List.flatten_cons, ih3, ← txnOf_append]
          rw [List.take_append_drop]
        · simp only [List.map_cons, ih4, List.length_cons, ih1]
          have h1 : 1 ≤ max 1 (((changes.drop 127).length + 126) / 127) :=
            le_max_left _ _
          obtain ⟨m', hm⟩ := Nat.exists_eq_add_of_le h1
          rw [hm, show 1 + m' - 1 = m' by omega,
            show 1 + m' + 1 - 1 = m' + 1 by omega, List.replicate_succ]
          simp
      · rw [commitUpdates, if_neg hlt]
        refine ⟨by simp; omega, ?_, by simp, by simp⟩
        intro t ht
        simp at ht
        simp [ht, txnOf_length]
        omega

/-- C3 (counterexample). commitUpdates on an empty change list still
issues one (empty) final transaction, while ceil(0 / 127) = 0: the claim's
transaction count is wrong at N = 0. -/
theorem commit_zero_changes_counterexample :
    (commitUpdates [] [] (fun _ => ⟨true, 0, "", 1⟩)).issued.length ≠
      ((List.length ([] : List op_t)) + 126) / 127 := by
  rw [commitUpdates]
  simp

/-- C3 (amended: when every issued transaction succeeds, the count is
ceil(N / 127) for N ≥ 1 and one empty transaction for N = 0, i.e.
max 1 (ceil(N / 127))). Each issued transaction holds at most 127
operations, their concatenation is the full change list in input order,
and all transactions except the last are awaited synchronously (the last
is asynchronous). -/
theorem commit_chunking (pfx : Key) (changes : List op_t)
    (resp : Nat → TxnResponse) (hok : ∀ i, (resp i).is_ok = true) :
    (commitUpdates pfx changes resp).issued.length =
        max 1 ((changes.length + 126) / 127) ∧
    (∀ t ∈ (commitUpdates pfx changes resp).issued, t.1.length ≤ 127) ∧
    ((commitUpdates pfx changes resp).issued.map Prod.fst).flatten =
        txnOf pfx changes ∧
    (commitUpdates pfx changes resp).issued.map Prod.snd =
        List.replicate
          ((commitUpdates pfx changes resp).issued.length - 1) true ++
          [false] :=
  commit_chunking_aux pfx changes.length changes le_rfl resp hok

/-- Changes used by the chunking witness: a single Put. -/
def wChanges1 : List op_t := [op_t.Put ['k'] "v" 0]

/-- Responses used by the chunking witness: always ok. -/
def wRespOk : Nat → TxnResponse := fun _ => ⟨true, 0, "", 1⟩

/-- Witness for the amended C3: one change, all responses ok. -/
theorem commit_chunking_witness :
    (∀ i, (wRespOk i).is_ok = true) ∧
    ((commitUpdates [] wChanges1 wRespOk).issued.length =
        max 1 ((wChanges1.length + 126) / 127) ∧
     (∀ t ∈ (commitUpdates [] wChanges1 wRespOk).issued, t.1.length ≤ 127) ∧
     ((commitUpdates [] wChanges1 wRespOk).issued.map Prod.fst).flatten =
        txnOf [] wChanges1 ∧
     (commitUpdates [] wChanges1 wRespOk).issued.map Prod.snd =
        List.replicate
          ((commitUpdates [] wChanges1 wRespOk).issued.length - 1) true ++
          [false]) :=
  ⟨fun _ => rfl, commit_chunking [] wChanges1 wRespOk (fun _ => rfl)⟩

/-- C4. If the sync transaction for chunk j fails while all earlier
responses were ok (chunk j being non-final: 127 (j + 1) < N), then exactly
the first j + 1 transactions were issued and nothing further, the caller's
callback is invoked exactly once, with that chunk's failure status and
that chunk's response revision, and the backing store has applied exactly
the j earlier chunks — none of them is rolled back. -/
theorem commit_intermediate_failure (pfx : Key) :
    ∀ (j : Nat) (changes : List op_t) (resp : Nat → TxnResponse),
      (resp j).is_ok = false →
      (∀ i, i < j → (resp i).is_ok = true) →
      127 * (j + 1) < changes.length →
      (commitUpdates pfx changes resp).issued.length = j + 1 ∧
      (commitUpdates pfx changes resp).callbacks =
        [(mkEtcdError (resp j).err_code (resp j).err_msg, (resp j).index)] ∧
      (commitUpdates pfx changes resp).applied =
        (List.range j).map
          (fun i => txnOf pfx ((changes.drop (127 * i)).take 127)) := by
  intro j
  induction j with
  | zero =>
      intro changes resp hfail _hok hj
      have hlt : 127 < changes.length := by omega
      rw [commitUpdates, if_pos hlt, if_neg (by simp [hfail])]
      simp
  | succ j ih =>
      intro changes resp hfail hok hj
      have hlt : 127 < changes.length := by omega
      rw [commitUpdates, if_pos hlt, if_pos (hok 0 (by omega))]
      have hj' : 127 * (j + 1) < (changes.drop 127).length := by
        simp only [List.length_drop]
        omega
      obtain ⟨ih1, ih2, ih3⟩ :=
        ih (changes.drop 127) (fun k => resp (k + 1)) hfail
          (fun i hi => hok (i + 1) (by omega)) hj'
      refine ⟨by simp [ih1], by simp [ih2], ?_⟩
      simp only [ih3, List.range_succ_eq_map, List.map_cons, List.map_map]
      congr 1
      apply List.map_congr_left
      intro i _
      simp only [Function.comp_apply, Nat.succ_eq_add_one, List.drop_drop]
      rw [show 127 + 127 * i = 127 * (i + 1) by ring]

/-- Changes used by the failure witness: 256 Puts, i.e. two sync chunks of
127 would be followed by a final chunk of 2. -/
def wChanges256 : List op_t := List.replicate 256 (op_t.Put ['k'] "v" 0)

/-- Responses used by the failure witness: the first transaction succeeds,
every later one fails with etcd error 3 at revision 9. -/
def wRespFail : Nat → TxnResponse :=
  fun i => if i = 0 then ⟨true, 0, "", 1⟩ else ⟨false, 3, "err", 9⟩

/-- Witness for C4: the second sync chunk (j = 1) fails. -/
theorem commit_intermediate_failure_witness :
    (wRespFail 1).is_ok = false ∧
    (∀ i, i < 1 → (wRespFail i).is_ok = true) ∧
    127 * (1 + 1) < wChanges256.length ∧
    ((commitUpdates [] wChanges256 wRespFail).issued.length = 1 + 1 ∧
     (commitUpdates [] wChanges256 wRespFail).callbacks =
       [(mkEtcdError (wRespFail 1).err_code (wRespFail 1).err_msg,
         (wRespFail 1).index)] ∧
     (commitUpdates [] wChanges256 wRespFail).applied =
       (List.range 1).map
         (fun i => txnOf [] ((wChanges256.drop (127 * i)).take 127))) :=
  ⟨by decide, by decide,
   by rw [wChanges256, List.length_replicate]; omega,
   commit_intermediate_failure [] 1 wChanges256 wRespFail (by decide)
     (by decide) (by rw [wChanges256, List.length_replicate]; omega)⟩

end Vineyard
